import Mathlib

/-!
Shallow embedding in Lean 4 of the librashader core components that the
verified properties concern: the semantics catalog
(librashader-reflect/src/reflect/semantics.rs), the D3D12 owned-image
lifecycle (librashader-runtime-d3d12/src/framebuffer.rs), the D3D11
filter-chain pass initialization and pass-semantics registration
(librashader-runtime-d3d11/src/filter_chain.rs), the Vulkan filter pass
(librashader-runtime-vk/src/filter_pass.rs) and the OpenGL render target
(librashader-runtime-gl/src/render_target.rs).

Rust machine integers (u32, u16, i32, usize) are modelled as Nat / Int;
none of the modelled operations overflow.  Strings are modelled as lists
of characters.  f32 values that the modelled code only stores or compares
(MVP entries, scale factors, clear colors) are modelled as rationals.
Helpers that live in crates whose sources are not part of this snapshot
(librashader-runtime scaling helpers, librashader-presets Scale2D,
d3d12_get_closest_format, Rust str::trim) are modelled from the
specification and marked as such in their doc comments.
-/

namespace Librashader

/-! ## Semantics catalog (librashader-reflect/src/reflect/semantics.rs) -/

/-- Rust `UniformType` from semantics.rs. -/
inductive UniformType where
  | MVP
  | Size
  | Unsigned
  | Signed
  | Float
deriving DecidableEq, Repr

/-- Rust `VariableSemantics` from semantics.rs. -/
inductive VariableSemantics where
  | MVP
  | Output
  | FinalViewport
  | FrameCount
  | FrameDirection
  | FloatParameter
deriving DecidableEq, Repr

/-- Rust `VariableSemantics::binding_type` from semantics.rs. -/
def VariableSemantics.binding_type : VariableSemantics → UniformType
  | .MVP => .MVP
  | .Output => .Size
  | .FinalViewport => .Size
  | .FrameCount => .Unsigned
  | .FrameDirection => .Signed
  | .FloatParameter => .Float

/-- Rust `TextureSemantics` from semantics.rs. -/
inductive TextureSemantics where
  | Original
  | Source
  | OriginalHistory
  | PassOutput
  | PassFeedback
  | User
deriving DecidableEq, Repr

/-- Rust `TextureSemantics::TEXTURE_SEMANTICS` from semantics.rs: the ordered
iteration sequence used for name matching. -/
def TextureSemantics.TEXTURE_SEMANTICS : List TextureSemantics :=
  [.Source, .OriginalHistory, .Original, .PassOutput, .PassFeedback, .User]

/-- Rust `TextureSemantics::size_uniform_name` from semantics.rs. -/
def TextureSemantics.size_uniform_name : TextureSemantics → List Char
  | .Original => "OriginalSize".toList
  | .Source => "SourceSize".toList
  | .OriginalHistory => "OriginalHistorySize".toList
  | .PassOutput => "PassOutputSize".toList
  | .PassFeedback => "PassFeedbackSize".toList
  | .User => "UserSize".toList

/-- Rust `TextureSemantics::texture_name` from semantics.rs. -/
def TextureSemantics.texture_name : TextureSemantics → List Char
  | .Original => "Original".toList
  | .Source => "Source".toList
  | .OriginalHistory => "OriginalHistory".toList
  | .PassOutput => "PassOutput".toList
  | .PassFeedback => "PassFeedback".toList
  | .User => "User".toList

/-- Rust `TextureSemantics::is_array` from semantics.rs. -/
def TextureSemantics.is_array : TextureSemantics → Bool
  | .Original => false
  | .Source => false
  | _ => true

/-- Rust `SemanticMap<TextureSemantics>` from semantics.rs: a texture semantic
together with its array index. -/
structure SemanticMapTexture where
  semantics : TextureSemantics
  index : Nat
deriving DecidableEq, Repr

/-- Rust `UniformSemantic` from librashader-reflect (referenced by the D3D11
filter chain): a uniform name is bound either to a variable semantic or to
a texture-size semantic. -/
inductive UniformSemantic where
  | variableSem (s : VariableSemantics)
  | texture (m : SemanticMapTexture)
deriving DecidableEq, Repr

/-! ## Name classification (modelled from the spec) -/

/-- Modelled from the spec: parsing of the decimal array-index suffix for
indexed texture semantics (the classifier itself lives in
librashader-reflect reflection code that is not part of this source
snapshot).  An empty suffix denotes index 0 (the spec's example
`OriginalHistorySize` classifies as `OriginalHistory`); otherwise the
suffix must consist solely of decimal digits. -/
def parseIndex (cs : List Char) : Option Nat :=
  if cs = [] then some 0
  else if cs.all Char.isDigit then
    some (cs.foldl (fun a c => a * 10 + (c.toNat - '0'.toNat)) 0)
  else none

/-- Modelled from the spec: match one texture semantic against a sampled
image name — the semantic's `texture_name` must be a prefix, and the
remaining suffix must be a decimal index for array semantics and empty for
`Original`/`Source`. -/
def matchTextureSem (s : TextureSemantics) (name : List Char) :
    Option SemanticMapTexture :=
  if s.texture_name.isPrefixOf name then
    if s.is_array then
      (parseIndex (name.drop s.texture_name.length)).map fun i => ⟨s, i⟩
    else if name.drop s.texture_name.length = [] then
      some ⟨s, 0⟩
    else none
  else none

/-- Modelled from the spec: the remainder of a uniform member name after
a texture semantic's `texture_name` prefix must be `{index}Size`, with
the index empty for non-array semantics and decimal for array
semantics. -/
def matchSizeRest (s : TextureSemantics) (rest : List Char) :
    Option SemanticMapTexture :=
  if "Size".toList.isSuffixOf rest then
    if rest.take (rest.length - "Size".toList.length) ++ "Size".toList
        = rest then
      if s.is_array then
        (parseIndex (rest.take (rest.length - "Size".toList.length))).map
          fun i => ⟨s, i⟩
      else if rest.take (rest.length - "Size".toList.length) = [] then
        some ⟨s, 0⟩
      else none
    else none
  else none

/-- Modelled from the spec: match one texture semantic against a uniform
member name carrying the `Size` suffix — `texture_name` must be a prefix,
and the remainder must satisfy `matchSizeRest`. -/
def matchTextureSizeSem (s : TextureSemantics) (name : List Char) :
    Option SemanticMapTexture :=
  if s.texture_name.isPrefixOf name then
    matchSizeRest s (name.drop s.texture_name.length)
  else none

/-- Modelled from the spec: walk the contractual ordered iteration
sequence, returning the first semantic that matches. -/
def classifyFirst (matcher : TextureSemantics → List Char → Option SemanticMapTexture) :
    List TextureSemantics → List Char → Option SemanticMapTexture
  | [], _ => none
  | s :: rest, name =>
    match matcher s name with
    | some r => some r
    | none => classifyFirst matcher rest name

/-- Modelled from the spec: classify a sampled-image name against the
texture semantics in the contractual order `TEXTURE_SEMANTICS`. -/
def classifyTextureName (name : List Char) : Option SemanticMapTexture :=
  classifyFirst matchTextureSem TextureSemantics.TEXTURE_SEMANTICS name

/-- Modelled from the spec: classify a uniform member name against the
texture-size semantics in the contractual order `TEXTURE_SEMANTICS`. -/
def classifyTextureSizeName (name : List Char) : Option SemanticMapTexture :=
  classifyFirst matchTextureSizeSem TextureSemantics.TEXTURE_SEMANTICS name

/-! ## D3D12 owned image (librashader-runtime-d3d12/src/framebuffer.rs) -/

/-- Image formats.  `unknown` models `ImageFormat::Unknown` /
`DXGI_FORMAT_UNKNOWN`, `r8g8b8a8Unorm` models
`DXGI_FORMAT_R8G8B8A8_UNORM`; every other backend format is `other n`. -/
inductive Format where
  | unknown
  | r8g8b8a8Unorm
  | other (n : Nat)
deriving DecidableEq, Repr

/-- Modelled from the spec: `d3d12_get_closest_format` (librashader
runtime util, not part of this source snapshot) maps a format hint to the
nearest backend-supported format; `Unknown` maps to `R8G8B8A8_UNORM` and
every other format is treated as backend-supported, hence mapped to
itself.  The `mipmap` flag widens the required format-support feature
bits (`OwnedImage::get_format_support`) but does not change the result in
this model where all concrete formats are supported. -/
def getClosestFormat (fmt : Format) (_mipmap : Bool) : Format :=
  match fmt with
  | .unknown => .r8g8b8a8Unorm
  | f => f

/-- Rust `Size<u32>` from librashader-common. -/
structure Size where
  width : Nat
  height : Nat
deriving DecidableEq, Repr

/-- Modelled from the spec: `Size::calculate_miplevels` (librashader
runtime scaling helpers, not part of this source snapshot) — mip-level
count is `⌊log2 (max w h)⌋ + 1`. -/
def Size.calculate_miplevels (s : Size) : Nat :=
  Nat.log2 (max s.width s.height) + 1

/-- The per-axis scaling modes of a `Scale2D` axis (librashader-presets,
not part of this source snapshot; modelled from the spec §4.5). -/
inductive ScaleType where
  | source
  | viewport
  | absolute
  | original
deriving DecidableEq, Repr

/-- One axis of a scale specification: a mode and a factor (f32 factor
modelled as a rational). -/
structure Scaling where
  scaleType : ScaleType
  factor : ℚ
deriving DecidableEq, Repr

/-- Rust `Scale2D` from librashader-presets (modelled from the spec). -/
structure Scale2D where
  x : Scaling
  y : Scaling
deriving DecidableEq, Repr

/-- Rounding of a non-negative f32 to the nearest integer (ties away from
zero), as `f32::round` behaves on the non-negative sizes involved. -/
def roundRat (q : ℚ) : Int :=
  (q + 1 / 2).floor

/-- Modelled from the spec: one axis of `scale_viewport` — `Source`
rounds `source × factor`, `Viewport` rounds `viewport × factor`,
`Absolute` interprets the factor as pixels, `Original` rounds
`original × factor`; a zero-sized axis is clamped to 1. -/
def scaleAxis (s : Scaling) (viewport source original : Nat) : Nat :=
  let raw : Int :=
    match s.scaleType with
    | .source => roundRat (source * s.factor)
    | .viewport => roundRat (viewport * s.factor)
    | .absolute => roundRat s.factor
    | .original => roundRat (original * s.factor)
  let n := raw.toNat
  if n = 0 then 1 else n

/-- Modelled from the spec: `source_size.scale_viewport(scaling,
viewport_size, original_size)` (librashader-runtime scaling helpers, not
part of this source snapshot) applies `scaleAxis` per axis. -/
def scaleViewport (sourceSize : Size) (scaling : Scale2D)
    (viewportSize originalSize : Size) : Size :=
  ⟨scaleAxis scaling.x viewportSize.width sourceSize.width originalSize.width,
   scaleAxis scaling.y viewportSize.height sourceSize.height originalSize.height⟩

/-- Rust `OwnedImage` from framebuffer.rs.  The backing GPU resource is
modelled by an allocation identifier `handle`; `OwnedImage::new` installs
a fresh identifier, so a changed `handle` is exactly a free-and-reallocate
of the backing resource (the Rust code builds a new `OwnedImage` and
`mem::swap`s it in, dropping — freeing — the old backing). -/
structure OwnedImage where
  handle : Nat
  size : Size
  format : Format
  max_mipmap : Nat
deriving DecidableEq, Repr

/-- Rust `OwnedImage::new` from framebuffer.rs: mip-level count is
`size.calculate_miplevels()` when mipmaps are requested and 1 otherwise,
and the stored format is the closest supported format for the requested
one (`desc.Format = d3d12_get_closest_format(..)`).  `fresh` is the
identifier of the newly allocated backing resource. -/
def OwnedImage.new (fresh : Nat) (size : Size) (format : Format)
    (mipmap : Bool) : OwnedImage :=
  { handle := fresh
    size := size
    format := getClosestFormat format mipmap
    max_mipmap := if mipmap then size.calculate_miplevels else 1 }

/-- Rust `OwnedImage::scale` from framebuffer.rs: compute the scaled size and
the supported target format, and reallocate the backing exactly when the
source's `if` condition holds: `self.size != size || (mipmap &&
self.max_mipmap == 1) || (!mipmap && self.max_mipmap != 1) || format !=
self.format`.  Returns the (possibly swapped) image and the computed
size. -/
def OwnedImage.scale (img : OwnedImage) (scaling : Scale2D) (format : Format)
    (viewport_size source_size original_size : Size) (mipmap : Bool)
    (fresh : Nat) : OwnedImage × Size :=
  if img.size ≠ scaleViewport source_size scaling viewport_size original_size
      ∨ (mipmap = true ∧ img.max_mipmap = 1)
      ∨ (mipmap = false ∧ img.max_mipmap ≠ 1)
      ∨ getClosestFormat format mipmap ≠ img.format then
    (OwnedImage.new fresh
      (scaleViewport source_size scaling viewport_size original_size)
      (getClosestFormat format mipmap) mipmap,
     scaleViewport source_size scaling viewport_size original_size)
  else
    (img, scaleViewport source_size scaling viewport_size original_size)

/-! ## D3D12 resource-state transitions (framebuffer.rs) -/

/-- The D3D12 resource states the owned-image operations move through. -/
inductive ResState where
  | shaderResource
  | renderTarget
  | copySource
  | copyDest
deriving DecidableEq, Repr

/-- The commands that `OwnedImage::clear` and `OwnedImage::copy_from`
record on the command list, abstracted: resource-state transitions
(`ResourceBarrier`), render-target clears (`ClearRenderTargetView`) and
texture-region copies (`CopyTextureRegion`).  Images are identified by
the `Nat` identifier of their backing resource; clear colors are the four
f32 components as rationals. -/
inductive GpuCommand where
  | transition (img : Nat) (src dst : ResState)
  | clearRTV (r g b a : ℚ)
  | copyRegion (src dst : Nat)
deriving DecidableEq, Repr

/-- Rust `OwnedImage::new` passes
`initial_state_or_layout = ResourceState(D3D12_RESOURCE_STATE_PIXEL_SHADER_RESOURCE)`
to the allocator: a freshly created owned image starts in shader-resource
state. -/
def OwnedImage.initialState : ResState := .shaderResource

/-- The command sequence recorded by `OwnedImage::clear` from
framebuffer.rs: transition to render-target state, clear to the static
`CLEAR` color `[0.0, 0.0, 0.0, 0.0]`, transition back. -/
def clearCommands (img : Nat) : List GpuCommand :=
  [.transition img .shaderResource .renderTarget,
   .clearRTV 0 0 0 0,
   .transition img .renderTarget .shaderResource]

/-- The command sequence recorded by `OwnedImage::copy_from` from
framebuffer.rs: transition the input to copy-source and the destination
to copy-dest, copy, transition both back to shader-resource state. -/
def copyFromCommands (self input : Nat) : List GpuCommand :=
  [.transition input .shaderResource .copySource,
   .transition self .shaderResource .copyDest,
   .copyRegion input self,
   .transition input .copySource .shaderResource,
   .transition self .copyDest .shaderResource]

/-- Execute a command list against a resource-state map.  A transition is
valid only when the resource currently is in the transition's source
state (the D3D12 validity condition for `ResourceBarrier`); an invalid
transition yields `none`. -/
def execCommands (s : Nat → ResState) : List GpuCommand → Option (Nat → ResState)
  | [] => some s
  | .transition i src dst :: rest =>
    if s i = src then
      execCommands (fun j => if j = i then dst else s j) rest
    else none
  | .clearRTV _ _ _ _ :: rest => execCommands s rest
  | .copyRegion _ _ :: rest => execCommands s rest

/-! ## D3D11 filter chain (librashader-runtime-d3d11/src/filter_chain.rs) -/

/-- Rust `UboReflection` from semantics.rs (the fields `init_passes` reads). -/
structure UboReflection where
  binding : Nat
  size : Nat
deriving DecidableEq, Repr

/-- Rust `PushReflection` from semantics.rs (the field `init_passes` reads). -/
structure PushReflection where
  size : Nat
deriving DecidableEq, Repr

/-- Rust `ConstantBufferBinding` slot assignment produced by
`FilterChain::init_passes` (the fields relevant to slot assignment). -/
structure ConstantBufferBinding where
  binding : Nat
  size : Nat
deriving DecidableEq, Repr

/-- The UBO constant-buffer created by `FilterChain::init_passes`: present
exactly when the reflection has a UBO of nonzero size, bound at the
reflected `ubo.binding`. -/
def ubo_cbuffer (ubo : Option UboReflection) : Option ConstantBufferBinding :=
  match ubo with
  | some u => if u.size ≠ 0 then some ⟨u.binding, u.size⟩ else none
  | none => none

/-- The push-constant emulation constant-buffer created by
`FilterChain::init_passes`: present exactly when the reflection has a push
block of nonzero size, bound at slot 1 when a UBO buffer exists and slot 0
otherwise. -/
def push_cbuffer (ubo : Option UboReflection) (push : Option PushReflection) :
    Option ConstantBufferBinding :=
  match push with
  | some p =>
    if p.size ≠ 0 then
      some ⟨if (ubo_cbuffer ubo).isSome then 1 else 0, p.size⟩
    else none
  | none => none

/-- Modelled from Rust `char::is_whitespace` (the Unicode `White_Space`
property), which `str::trim` strips. -/
def isRustWhitespace (c : Char) : Bool :=
  c.toNat ∈ [0x09, 0x0A, 0x0B, 0x0C, 0x0D, 0x20, 0x85, 0xA0, 0x1680,
    0x2000, 0x2001, 0x2002, 0x2003, 0x2004, 0x2005, 0x2006, 0x2007,
    0x2008, 0x2009, 0x200A, 0x2028, 0x2029, 0x202F, 0x205F, 0x3000]

/-- Modelled from Rust `str::trim`: strip leading and trailing
whitespace. -/
def rustTrim (s : List Char) : List Char :=
  ((s.dropWhile isRustWhitespace).reverse.dropWhile isRustWhitespace).reverse

/-- The fields of `ShaderPassConfig` that
`FilterChain::load_pass_semantics` reads: the pass id and the optional
alias. -/
structure ShaderPassConfig where
  id : Nat
  aliasName : Option (List Char)

/-- A string-keyed map, modelled as a function to `Option`;
`FxHashMap::insert` is pointwise update. -/
def StrMap (α : Type) := List Char → Option α

/-- Rust `FxHashMap::insert`: later insertions overwrite earlier ones at the
same key. -/
def StrMap.insert (m : StrMap α) (k : List Char) (v : α) : StrMap α :=
  fun k' => if k' = k then some v else m k'

/-- Rust `FilterChain::load_pass_semantics` from filter_chain.rs: with no alias
or a whitespace-only alias the maps are returned untouched; otherwise the
alias is registered as the pass's `PassOutput` texture, `{alias}Size` as
its size uniform, `{alias}Feedback` as its `PassFeedback` texture and
`{alias}FeedbackSize` as that size uniform, all at index `config.id`. -/
def load_pass_semantics (uniform_semantics : StrMap UniformSemantic)
    (texture_semantics : StrMap SemanticMapTexture)
    (config : ShaderPassConfig) :
    StrMap UniformSemantic × StrMap SemanticMapTexture :=
  match config.aliasName with
  | none => (uniform_semantics, texture_semantics)
  | some a =>
    if (rustTrim a).isEmpty then (uniform_semantics, texture_semantics)
    else
      let index := config.id
      let t1 := texture_semantics.insert a ⟨.PassOutput, index⟩
      let u1 := uniform_semantics.insert (a ++ "Size".toList)
        (.texture ⟨.PassOutput, index⟩)
      let t2 := t1.insert (a ++ "Feedback".toList) ⟨.PassFeedback, index⟩
      let u2 := u1.insert (a ++ "FeedbackSize".toList)
        (.texture ⟨.PassFeedback, index⟩)
      (u2, t2)

/-! ## Vulkan filter pass (librashader-runtime-vk/src/filter_pass.rs) -/

/-- Rust `FilterPass::get_format` from filter_pass.rs: the config's format
override when present, else `R8G8B8A8Unorm` when the source's format hint
is `Unknown`, else the hint itself. -/
def get_format (format_override : Option Format) (source_format : Format) :
    Format :=
  match format_override with
  | some format => format
  | none =>
    if source_format = .unknown then .r8g8b8a8Unorm
    else source_format

/-- The slice `parent.output_inputs[0..pass_index]` that
`FilterPass::build_semantics` hands to the binding driver as the
`PassOutput` accessor: Rust slicing panics when the end index exceeds the
length, modelled as `none`. -/
def outputInputsSlice (outputs : List α) (pass_index : Nat) :
    Option (List α) :=
  if pass_index ≤ outputs.length then some (outputs.take pass_index)
  else none

/-- The pair of texture accessors `FilterPass::build_semantics` passes to
`bind_semantics`: `parent.output_inputs[0..pass_index]` for `PassOutput`
and the full `parent.feedback_inputs` for `PassFeedback`. -/
def buildSemanticsAccessors (pass_index : Nat) (output_inputs feedback_inputs : List α) :
    Option (List α × List α) :=
  (outputInputsSlice output_inputs pass_index).map fun po => (po, feedback_inputs)

/-! ## OpenGL render target (librashader-runtime-gl/src/render_target.rs) -/

/-- Rust `DEFAULT_MVP` from render_target.rs (f32 entries as rationals). -/
def DEFAULT_MVP : List ℚ :=
  [2, 0, 0, 0,
   0, 2, 0, 0,
   0, 0, 2, 0,
   -1, -1, 0, 1]

/-- Rust `RenderTarget` from render_target.rs; the borrowed `Framebuffer` is
abstracted by a type parameter. -/
structure RenderTarget (F : Type) where
  mvp : List ℚ
  framebuffer : F
  x : Int
  y : Int
deriving DecidableEq, Repr

/-- Rust `RenderTarget::new` from render_target.rs. -/
def RenderTarget.new (backbuffer : F) (mvp : Option (List ℚ)) (x y : Int) :
    RenderTarget F :=
  match mvp with
  | some mvp =>
    { framebuffer := backbuffer, x := x, mvp := mvp, y := y }
  | none =>
    { framebuffer := backbuffer, x := x, mvp := DEFAULT_MVP, y := y }

/-! ## Theorems -/

/-- C8: `VariableSemantics::binding_type` maps every variable semantic to
exactly the uniform type the spec declares: MVP to MVP, Output and
FinalViewport to Size, FrameCount to Unsigned, FrameDirection to Signed,
and FloatParameter to Float. -/
theorem variable_semantics_binding_type_spec :
    VariableSemantics.MVP.binding_type = .MVP ∧
    VariableSemantics.Output.binding_type = .Size ∧
    VariableSemantics.FinalViewport.binding_type = .Size ∧
    VariableSemantics.FrameCount.binding_type = .Unsigned ∧
    VariableSemantics.FrameDirection.binding_type = .Signed ∧
    VariableSemantics.FloatParameter.binding_type = .Float := by
  decide

/-- C7: for every pass, the output format computed by
`FilterPass::get_format` is the config's format override when one is
present; otherwise `R8G8B8A8_UNORM` when the source's format hint is
`Unknown`, and the hint itself otherwise. -/
theorem get_format_spec (f src : Format) :
    get_format (some f) src = f ∧
    get_format none .unknown = .r8g8b8a8Unorm ∧
    (src ≠ .unknown → get_format none src = src) := by
  refine ⟨rfl, rfl, fun h => ?_⟩
  simp [get_format, h]

/-- Witness for C7 at a concrete non-Unknown source format. -/
theorem get_format_spec_witness :
    get_format none .r8g8b8a8Unorm = .r8g8b8a8Unorm :=
  (get_format_spec (.other 0) .r8g8b8a8Unorm).2.2 (by decide)

/-- C10: `RenderTarget::new` returns a render target whose framebuffer,
x and y equal the arguments; its mvp is the supplied matrix when one is
given and otherwise the fixed default matrix
`[2,0,0,0, 0,2,0,0, 0,0,2,0, -1,-1,0,1]`. -/
theorem render_target_new_spec {F : Type} (fb : F) (m : List ℚ) (x y : Int) :
    RenderTarget.new fb (some m) x y =
      { mvp := m, framebuffer := fb, x := x, y := y } ∧
    RenderTarget.new fb none x y =
      { mvp := DEFAULT_MVP, framebuffer := fb, x := x, y := y } ∧
    DEFAULT_MVP = [2, 0, 0, 0, 0, 2, 0, 0, 0, 0, 2, 0, -1, -1, 0, 1] :=
  ⟨rfl, rfl, rfl⟩

/-- C6: the texture accessors `FilterPass::build_semantics` hands to the
binding driver for pass `pass_index` expose exactly the owned outputs of
the passes before `pass_index` (`PassOutput[i]` resolvable only for
`i < pass_index`), while the `PassFeedback` accessor exposes the feedback
images of all passes regardless of `pass_index`. -/
theorem build_semantics_accessor_scopes {α : Type}
    (output_inputs feedback_inputs : List α) (pass_index : Nat)
    (hk : pass_index ≤ output_inputs.length) :
    buildSemanticsAccessors pass_index output_inputs feedback_inputs =
      some (output_inputs.take pass_index, feedback_inputs) ∧
    (∀ i, i < pass_index →
      (output_inputs.take pass_index)[i]? = output_inputs[i]?) ∧
    (∀ i, i < pass_index → (output_inputs.take pass_index)[i]?.isSome) ∧
    (∀ i, pass_index ≤ i → (output_inputs.take pass_index)[i]? = none) := by
  refine ⟨?_, fun i hi => ?_, fun i hi => ?_, fun i hi => ?_⟩
  · simp [buildSemanticsAccessors, outputInputsSlice, hk]
  · exact List.getElem?_take_of_lt hi
  · rw [List.getElem?_take_of_lt hi]
    rw [List.getElem?_eq_getElem (by omega)]
    rfl
  · apply List.getElem?_eq_none
    simp only [List.length_take]
    omega

/-- Witness for C6: three owned pass outputs, two feedback images,
binding for pass 2. -/
theorem build_semantics_accessor_scopes_witness :
    buildSemanticsAccessors 2 [10, 20, 30] [7, 8] =
      some (([10, 20, 30].take 2 : List Nat), [7, 8]) :=
  (build_semantics_accessor_scopes [10, 20, 30] [7, 8] 2 (by decide)).1

/-- C4 counterexample: the claim that the push-constant emulation
buffer's slot is always distinct from the UBO's reflected binding slot
fails when the reflection reports the UBO at binding 1 — then
`FilterChain::init_passes` places the push buffer at slot 1 as well. -/
theorem push_slot_collides_when_ubo_binding_one :
    (ubo_cbuffer (some ⟨1, 16⟩)).map ConstantBufferBinding.binding = some 1 ∧
    (push_cbuffer (some ⟨1, 16⟩) (some ⟨16⟩)).map ConstantBufferBinding.binding
      = some 1 := by
  decide

/-- C4 amended: for every pass that has both a UBO constant buffer and a
push-constant emulation buffer, the slot chosen for the push buffer (1
when a UBO buffer exists, 0 otherwise) is distinct from the UBO buffer's
reflected binding slot, provided that reflected slot is not 1. -/
theorem push_slot_distinct_of_ubo_binding_ne_one
    (ubo : Option UboReflection) (push : Option PushReflection)
    (ub pb : ConstantBufferBinding)
    (hu : ubo_cbuffer ubo = some ub) (hp : push_cbuffer ubo push = some pb)
    (h1 : ub.binding ≠ 1) : pb.binding ≠ ub.binding := by
  have hsome : (ubo_cbuffer ubo).isSome := by rw [hu]; rfl
  match push with
  | none => exact absurd hp (by simp [push_cbuffer])
  | some p =>
    rw [push_cbuffer] at hp
    by_cases hz : p.size ≠ 0
    · rw [if_pos hz, hsome] at hp
      rw [if_pos rfl] at hp
      have hpb : pb.binding = 1 := by
        rw [← Option.some.inj hp]
      rw [hpb]
      exact fun h => h1 h.symm
    · rw [if_neg hz] at hp
      exact absurd hp (by simp)

/-- Witness for C4's amended theorem: UBO reflected at binding 0, push
buffer of 8 bytes placed at slot 1. -/
theorem push_slot_distinct_witness :
    (⟨1, 8⟩ : ConstantBufferBinding).binding
      ≠ (⟨0, 16⟩ : ConstantBufferBinding).binding :=
  push_slot_distinct_of_ubo_binding_ne_one (some ⟨0, 16⟩) (some ⟨8⟩)
    ⟨0, 16⟩ ⟨1, 8⟩ (by decide) (by decide) (by decide)

/-- A list is not one of its proper right-extensions. -/
theorem ne_append_of_ne_nil (a s : List Char) (hs : s ≠ []) : a ≠ a ++ s := by
  intro h
  have hlen := congrArg List.length h
  rw [List.length_append] at hlen
  have : s.length = 0 := by omega
  exact hs (List.length_eq_zero.mp this)

/-- C9: `FilterChain::load_pass_semantics` registers nothing for a pass
whose alias is absent or whitespace-only, leaving both semantic maps
unchanged; for a pass with a non-whitespace alias it registers exactly
four entries at the pass's index: the alias as `PassOutput`,
`{alias}Size` as the `PassOutput` size uniform, `{alias}Feedback` as
`PassFeedback`, and `{alias}FeedbackSize` as the `PassFeedback` size
uniform — and touches no other key of either map. -/
theorem load_pass_semantics_spec
    (u : StrMap UniformSemantic) (t : StrMap SemanticMapTexture)
    (config : ShaderPassConfig) :
    ((config.aliasName = none ∨
        ∃ a, config.aliasName = some a ∧ rustTrim a = []) →
      load_pass_semantics u t config = (u, t)) ∧
    (∀ a, config.aliasName = some a → rustTrim a ≠ [] →
      (load_pass_semantics u t config).2 a = some ⟨.PassOutput, config.id⟩ ∧
      (load_pass_semantics u t config).2 (a ++ "Feedback".toList)
        = some ⟨.PassFeedback, config.id⟩ ∧
      (load_pass_semantics u t config).1 (a ++ "Size".toList)
        = some (.texture ⟨.PassOutput, config.id⟩) ∧
      (load_pass_semantics u t config).1 (a ++ "FeedbackSize".toList)
        = some (.texture ⟨.PassFeedback, config.id⟩) ∧
      (∀ k, k ≠ a → k ≠ a ++ "Feedback".toList →
        (load_pass_semantics u t config).2 k = t k) ∧
      (∀ k, k ≠ a ++ "Size".toList → k ≠ a ++ "FeedbackSize".toList →
        (load_pass_semantics u t config).1 k = u k)) := by
  obtain ⟨cid, ca⟩ := config
  constructor
  · rintro (h | ⟨a, ha, hta⟩)
    · simp only [] at h
      subst h
      rfl
    · simp only [] at ha
      subst ha
      simp [load_pass_semantics, hta]
  · intro a ha hne
    simp only [] at ha
    subst ha
    have hemp : (rustTrim a).isEmpty = false := by
      cases h : rustTrim a with
      | nil => exact absurd h hne
      | cons x xs => rfl
    have hne1 : a ≠ a ++ "Feedback".toList :=
      ne_append_of_ne_nil a _ (by decide)
    have hne2 : a ++ "Size".toList ≠ a ++ "FeedbackSize".toList := by
      intro h
      exact absurd (List.append_cancel_left h) (by decide)
    simp only [load_pass_semantics, hemp, Bool.false_eq_true, if_false,
      StrMap.insert]
    refine ⟨?_, ?_, ?_, ?_, fun k hk1 hk2 => ?_, fun k hk1 hk2 => ?_⟩
    · simp
    · simp
    · simp
    · simp
    · rw [if_neg hk2, if_neg hk1]
    · rw [if_neg hk2, if_neg hk1]

/-- Witness for C9: a pass with alias `A` and index 3 registers the four
entries. -/
theorem load_pass_semantics_spec_witness :
    (load_pass_semantics (fun _ => none) (fun _ => none)
        ⟨3, some "A".toList⟩).2 "A".toList
      = some ⟨.PassOutput, 3⟩ :=
  ((load_pass_semantics_spec (fun _ => none) (fun _ => none)
      ⟨3, some "A".toList⟩).2 "A".toList rfl (by decide)).1

/-- C5: shader-resource state is an invariant of the owned-image
operations.  `OwnedImage::new` creates the resource already in
shader-resource state; `OwnedImage::clear` records a transition to
render-target state, a clear to color (0,0,0,0) and a transition back;
`OwnedImage::copy_from` records transitions of the source to copy-source
state and of the destination to copy-dest state, the copy, and
transitions of both back — so every operation run on images in
shader-resource state is a valid transition sequence that ends with those
images again in shader-resource state (the whole state map is
restored). -/
theorem owned_image_ops_preserve_shader_resource_state :
    OwnedImage.initialState = .shaderResource ∧
    (∀ i, clearCommands i =
      [.transition i .shaderResource .renderTarget,
       .clearRTV 0 0 0 0,
       .transition i .renderTarget .shaderResource]) ∧
    (∀ (s : Nat → ResState) i, s i = .shaderResource →
      execCommands s (clearCommands i) = some s) ∧
    (∀ self input, copyFromCommands self input =
      [.transition input .shaderResource .copySource,
       .transition self .shaderResource .copyDest,
       .copyRegion input self,
       .transition input .copySource .shaderResource,
       .transition self .copyDest .shaderResource]) ∧
    (∀ (s : Nat → ResState) self input, self ≠ input →
      s self = .shaderResource → s input = .shaderResource →
      execCommands s (copyFromCommands self input) = some s) := by
  refine ⟨rfl, fun i => rfl, fun s i h => ?_, fun self input => rfl,
    fun s self input hne hself hinput => ?_⟩
  · rw [clearCommands]
    rw [execCommands, if_pos h]
    rw [execCommands]
    rw [execCommands, if_pos (by simp)]
    rw [execCommands]
    congr 1
    funext j
    by_cases hj : j = i
    · subst hj
      simp [h]
    · simp [hj]
  · rw [copyFromCommands]
    rw [execCommands, if_pos hinput]
    rw [execCommands, if_pos (by simp [hne, Ne.symm hne, hself])]
    rw [execCommands]
    rw [execCommands, if_pos (by simp [Ne.symm hne])]
    rw [execCommands, if_pos (by simp [hne])]
    rw [execCommands]
    congr 1
    funext j
    by_cases hj1 : j = self
    · subst hj1
      simp [hne, hself]
    · by_cases hj2 : j = input
      · subst hj2
        simp [hj1, hinput]
      · simp [hj1, hj2]

/-- Witness for C5: a two-image state map entirely in shader-resource
state is restored by both the clear and the copy command sequences. -/
theorem owned_image_state_witness :
    execCommands (fun _ => ResState.shaderResource) (clearCommands 0)
        = some (fun _ => ResState.shaderResource) ∧
    execCommands (fun _ => ResState.shaderResource) (copyFromCommands 1 0)
        = some (fun _ => ResState.shaderResource) :=
  ⟨(owned_image_ops_preserve_shader_resource_state).2.2.1
      (fun _ => ResState.shaderResource) 0 rfl,
   (owned_image_ops_preserve_shader_resource_state).2.2.2.2
      (fun _ => ResState.shaderResource) 1 0 (by decide) rfl rfl⟩

/-- A successful texture-name match always carries the semantic it was
matched against. -/
theorem matchTextureSem_semantics {s : TextureSemantics} {name : List Char}
    {r : SemanticMapTexture} (h : matchTextureSem s name = some r) :
    r.semantics = s := by
  unfold matchTextureSem at h
  split at h
  · split at h
    · obtain ⟨i, _, hfi⟩ := Option.map_eq_some'.mp h
      rw [← hfi]
    · split at h
      · rw [← Option.some.inj h]
      · exact absurd h (by simp)
  · exact absurd h (by simp)

/-- A successful texture-size-name match always carries the semantic it
was matched against. -/
theorem matchTextureSizeSem_semantics {s : TextureSemantics} {name : List Char}
    {r : SemanticMapTexture} (h : matchTextureSizeSem s name = some r) :
    r.semantics = s := by
  unfold matchTextureSizeSem matchSizeRest at h
  split at h
  · split at h
    · split at h
      · split at h
        · obtain ⟨i, _, hfi⟩ := Option.map_eq_some'.mp h
          rw [← hfi]
        · split at h
          · rw [← Option.some.inj h]
          · exact absurd h (by simp)
      · exact absurd h (by simp)
    · exact absurd h (by simp)
  · exact absurd h (by simp)

/-- A list is a `List.isPrefixOf` of itself followed by anything. -/
theorem isPrefixOf_self_append (l r : List Char) :
    l.isPrefixOf (l ++ r) = true := by
  induction l with
  | nil => cases r <;> rfl
  | cons a as ih => simp [List.isPrefixOf, ih]

/-- The `Original` size-uniform matcher rejects every name beginning with
`OriginalHistory`: the remainder after the `Original` prefix starts with
`History`, so it is never exactly `{index}Size` with an empty index. -/
theorem matchTextureSizeSem_original_none (suffix : List Char) :
    matchTextureSizeSem .Original ("OriginalHistory".toList ++ suffix)
      = none := by
  have hsplit : "OriginalHistory".toList ++ suffix
      = "Original".toList ++ ("History".toList ++ suffix) := by
    rw [← List.append_assoc]
    rfl
  rw [matchTextureSizeSem, hsplit]
  rw [show TextureSemantics.Original.texture_name = "Original".toList from rfl]
  rw [isPrefixOf_self_append, if_pos rfl]
  rw [List.drop_left]
  rw [matchSizeRest]
  split
  · split
    · rename_i hmid
      split
      · rename_i harr
        exact absurd harr (by decide)
      · split
        · rename_i hnil
          exfalso
          rw [hnil, List.nil_append] at hmid
          have hh := congrArg List.head? hmid
          simp at hh
        · rfl
    · rfl
  · rfl

/-- Characterization of the sampled-image classifier on names beginning
with `OriginalHistory`: `Source` fails on the first character,
`OriginalHistory` is reached second and consumes the whole prefix, and
when its index parse fails no later semantic (in particular not
`Original`, whose matcher demands an empty remainder) accepts the
name. -/
theorem classifyTextureName_originalHistory (suffix : List Char) :
    classifyTextureName ("OriginalHistory".toList ++ suffix)
      = (parseIndex suffix).map
          (fun i => (⟨.OriginalHistory, i⟩ : SemanticMapTexture)) := by
  cases suffix with
  | nil => rfl
  | cons c cs =>
    have h0 : classifyTextureName ("OriginalHistory".toList ++ (c :: cs))
        = match (parseIndex (c :: cs)).map
            (fun i => (⟨.OriginalHistory, i⟩ : SemanticMapTexture)) with
          | some r => some r
          | none => none := rfl
    rw [h0]
    cases parseIndex (c :: cs) <;> rfl

/-- C1: the texture-semantic iteration sequence is exactly
`Source, OriginalHistory, Original, PassOutput, PassFeedback, User`
(`OriginalHistory` before `Original`), and every uniform or texture name
beginning with `OriginalHistory` — hence having both `OriginalHistory`
and `Original` as prefixes — classifies, when it classifies at all, to
the `OriginalHistory` semantic and never to the `Original` semantic. -/
theorem texture_semantics_order_and_history_precedence :
    TextureSemantics.TEXTURE_SEMANTICS =
      [.Source, .OriginalHistory, .Original, .PassOutput, .PassFeedback,
        .User] ∧
    (∀ suffix r,
      classifyTextureName ("OriginalHistory".toList ++ suffix) = some r →
        r.semantics = .OriginalHistory ∧ r.semantics ≠ .Original) ∧
    (∀ suffix r,
      classifyTextureSizeName ("OriginalHistory".toList ++ suffix) = some r →
        r.semantics = .OriginalHistory ∧ r.semantics ≠ .Original) := by
  refine ⟨rfl, fun suffix r h => ?_, fun suffix r h => ?_⟩
  · rw [classifyTextureName_originalHistory] at h
    obtain ⟨i, _, hfi⟩ := Option.map_eq_some'.mp h
    rw [← hfi]
    exact ⟨rfl, by simp⟩
  · have h0 : classifyTextureSizeName ("OriginalHistory".toList ++ suffix)
        = match matchTextureSizeSem .OriginalHistory
            ("OriginalHistory".toList ++ suffix) with
          | some x => some x
          | none =>
            match matchTextureSizeSem .Original
                ("OriginalHistory".toList ++ suffix) with
            | some x => some x
            | none => none := rfl
    rw [h0, matchTextureSizeSem_original_none] at h
    cases hOH : matchTextureSizeSem .OriginalHistory
        ("OriginalHistory".toList ++ suffix) with
    | none =>
      rw [hOH] at h
      exact absurd h (by simp)
    | some x =>
      rw [hOH] at h
      simp only [] at h
      have hx := matchTextureSizeSem_semantics hOH
      rw [← Option.some.inj h, hx]
      exact ⟨rfl, by simp⟩

/-- Witness for C1: `OriginalHistory3` classifies as texture
`OriginalHistory[3]` and `OriginalHistorySize` as the size uniform of
`OriginalHistory[0]`; neither is `Original`. -/
theorem texture_semantics_precedence_witness :
    ((⟨.OriginalHistory, 3⟩ : SemanticMapTexture).semantics
        = .OriginalHistory ∧
      (⟨.OriginalHistory, 3⟩ : SemanticMapTexture).semantics ≠ .Original) ∧
    ((⟨.OriginalHistory, 0⟩ : SemanticMapTexture).semantics
        = .OriginalHistory ∧
      (⟨.OriginalHistory, 0⟩ : SemanticMapTexture).semantics ≠ .Original) :=
  ⟨texture_semantics_order_and_history_precedence.2.1 "3".toList
      ⟨.OriginalHistory, 3⟩ (by decide),
   texture_semantics_order_and_history_precedence.2.2 "Size".toList
      ⟨.OriginalHistory, 0⟩ (by decide)⟩

/-- The modelled closest-format mapping is idempotent: a supported format
is its own closest supported format. -/
theorem getClosestFormat_idem (f : Format) (m m' : Bool) :
    getClosestFormat (getClosestFormat f m) m' = getClosestFormat f m := by
  cases f <;> rfl

/-- For `max_mipmap ≥ 1` (which holds for every image built by
`OwnedImage::new`), the source's two mip-flag disjuncts say exactly that
the requested flag disagrees with `max_mipmap > 1`. -/
theorem mipmap_cond_equiv (m : Bool) (k : Nat) (hk : 1 ≤ k) :
    ((m = true ∧ k = 1) ∨ (m = false ∧ k ≠ 1)) ↔ m ≠ decide (1 < k) := by
  cases m <;> simp <;> omega

/-- C2: `OwnedImage::scale` frees and reallocates the backing resource
(installing the fresh handle) if and only if the computed new size
differs from the current size, or the requested mipmap flag disagrees
with whether the current mip-level count exceeds 1, or the computed
target format differs from the current format; otherwise the image is
kept unchanged.  On reallocation the new image has the computed size and
format and mip-level count `⌊log2 (max w h)⌋ + 1` when mipmaps are
requested and 1 otherwise; the computed size is returned either way. -/
theorem owned_image_scale_realloc_iff
    (img : OwnedImage) (scaling : Scale2D) (format : Format)
    (viewport_size source_size original_size : Size) (mipmap : Bool)
    (fresh : Nat) (hmm : 1 ≤ img.max_mipmap) (hfresh : fresh ≠ img.handle) :
    ((img.scale scaling format viewport_size source_size original_size
          mipmap fresh).1.handle ≠ img.handle
      ↔ (scaleViewport source_size scaling viewport_size original_size
            ≠ img.size
          ∨ mipmap ≠ decide (1 < img.max_mipmap)
          ∨ getClosestFormat format mipmap ≠ img.format)) ∧
    (¬(scaleViewport source_size scaling viewport_size original_size
          ≠ img.size
        ∨ mipmap ≠ decide (1 < img.max_mipmap)
        ∨ getClosestFormat format mipmap ≠ img.format) →
      (img.scale scaling format viewport_size source_size original_size
          mipmap fresh).1 = img) ∧
    ((scaleViewport source_size scaling viewport_size original_size
          ≠ img.size
        ∨ mipmap ≠ decide (1 < img.max_mipmap)
        ∨ getClosestFormat format mipmap ≠ img.format) →
      (img.scale scaling format viewport_size source_size original_size
            mipmap fresh).1
        = OwnedImage.new fresh
            (scaleViewport source_size scaling viewport_size original_size)
            (getClosestFormat format mipmap) mipmap ∧
      (img.scale scaling format viewport_size source_size original_size
            mipmap fresh).1.size
        = scaleViewport source_size scaling viewport_size original_size ∧
      (img.scale scaling format viewport_size source_size original_size
            mipmap fresh).1.format = getClosestFormat format mipmap ∧
      (img.scale scaling format viewport_size source_size original_size
            mipmap fresh).1.max_mipmap
        = if mipmap then
            Nat.log2 (max
              (scaleViewport source_size scaling viewport_size
                original_size).width
              (scaleViewport source_size scaling viewport_size
                original_size).height) + 1
          else 1) ∧
    (img.scale scaling format viewport_size source_size original_size
        mipmap fresh).2
      = scaleViewport source_size scaling viewport_size original_size := by
  have hequiv :
      (img.size ≠ scaleViewport source_size scaling viewport_size
          original_size
        ∨ (mipmap = true ∧ img.max_mipmap = 1)
        ∨ (mipmap = false ∧ img.max_mipmap ≠ 1)
        ∨ getClosestFormat format mipmap ≠ img.format)
      ↔ (scaleViewport source_size scaling viewport_size original_size
            ≠ img.size
          ∨ mipmap ≠ decide (1 < img.max_mipmap)
          ∨ getClosestFormat format mipmap ≠ img.format) := by
    rw [ne_comm
      (a := scaleViewport source_size scaling viewport_size original_size)]
    have h1 := mipmap_cond_equiv mipmap img.max_mipmap hmm
    tauto
  by_cases hc :
      (img.size ≠ scaleViewport source_size scaling viewport_size
          original_size
        ∨ (mipmap = true ∧ img.max_mipmap = 1)
        ∨ (mipmap = false ∧ img.max_mipmap ≠ 1)
        ∨ getClosestFormat format mipmap ≠ img.format)
  · rw [OwnedImage.scale, if_pos hc]
    refine ⟨?_, fun hs => absurd (hequiv.mp hc) hs, fun _ =>
      ⟨rfl, rfl, getClosestFormat_idem format mipmap mipmap, rfl⟩, rfl⟩
    constructor
    · exact fun _ => hequiv.mp hc
    · exact fun _ => hfresh
  · rw [OwnedImage.scale, if_neg hc]
    refine ⟨?_, fun _ => rfl, fun hs => absurd (hequiv.mpr hs) hc, rfl⟩
    constructor
    · exact fun h => absurd rfl h
    · exact fun hs => absurd (hequiv.mpr hs) hc

/-- Witness for C2: an image of size 4×4 with a single mip level, scaled
with an absolute 1×1 specification and mipmaps requested, is
reallocated. -/
theorem owned_image_scale_realloc_iff_witness :
    ((OwnedImage.scale ⟨0, ⟨4, 4⟩, .r8g8b8a8Unorm, 1⟩
        ⟨⟨.absolute, 1⟩, ⟨.absolute, 1⟩⟩ .r8g8b8a8Unorm
        ⟨128, 128⟩ ⟨4, 4⟩ ⟨4, 4⟩ true 5).2
      = scaleViewport ⟨4, 4⟩ ⟨⟨.absolute, 1⟩, ⟨.absolute, 1⟩⟩
          ⟨128, 128⟩ ⟨4, 4⟩) :=
  (owned_image_scale_realloc_iff ⟨0, ⟨4, 4⟩, .r8g8b8a8Unorm, 1⟩
      ⟨⟨.absolute, 1⟩, ⟨.absolute, 1⟩⟩ .r8g8b8a8Unorm
      ⟨128, 128⟩ ⟨4, 4⟩ ⟨4, 4⟩ true 5 (by decide) (by decide)).2.2.2

/-- The value of `Nat.log2 n` is at least 1 once `n ≥ 2`. -/
theorem one_le_log2 (n : Nat) (h : 2 ≤ n) : 1 ≤ Nat.log2 n := by
  unfold Nat.log2
  simp [h]

/-- C3 counterexample: scale idempotence fails as stated.  Scaling a 4×4
image to an absolute 1×1 size with mipmaps requested allocates a backing
with a single mip level (`⌊log2 1⌋ + 1 = 1`); an immediately repeated
call with identical arguments then satisfies
`mipmap && self.max_mipmap == 1` and reallocates again. -/
theorem scale_not_idempotent_at_one_by_one :
    (OwnedImage.scale ⟨0, ⟨4, 4⟩, .r8g8b8a8Unorm, 3⟩
        ⟨⟨.absolute, 1⟩, ⟨.absolute, 1⟩⟩ .r8g8b8a8Unorm
        ⟨128, 128⟩ ⟨4, 4⟩ ⟨4, 4⟩ true 1).1
      = ⟨1, ⟨1, 1⟩, .r8g8b8a8Unorm, 1⟩ ∧
    (OwnedImage.scale ⟨1, ⟨1, 1⟩, .r8g8b8a8Unorm, 1⟩
        ⟨⟨.absolute, 1⟩, ⟨.absolute, 1⟩⟩ .r8g8b8a8Unorm
        ⟨128, 128⟩ ⟨4, 4⟩ ⟨4, 4⟩ true 2).1
      = ⟨2, ⟨1, 1⟩, .r8g8b8a8Unorm, 1⟩ ∧
    (⟨2, ⟨1, 1⟩, .r8g8b8a8Unorm, 1⟩ : OwnedImage)
      ≠ ⟨1, ⟨1, 1⟩, .r8g8b8a8Unorm, 1⟩ := by
  have hround : roundRat 1 = 1 := by
    rw [roundRat, Rat.floor_def']
    norm_num
  have hsv : scaleViewport ⟨4, 4⟩ ⟨⟨.absolute, 1⟩, ⟨.absolute, 1⟩⟩
      ⟨128, 128⟩ ⟨4, 4⟩ = ⟨1, 1⟩ := by
    simp [scaleViewport, scaleAxis, hround]
  refine ⟨?_, ?_, by decide⟩
  · rw [OwnedImage.scale, if_pos (by rw [hsv]; simp)]
    rw [OwnedImage.new, hsv]
    simp [Size.calculate_miplevels, Nat.log2, getClosestFormat]
  · rw [OwnedImage.scale, if_pos (by rw [hsv]; simp)]
    rw [OwnedImage.new, hsv]
    simp [Size.calculate_miplevels, Nat.log2, getClosestFormat]

/-- C3 amended: calling `OwnedImage::scale` twice with identical
arguments does not reallocate on the second call — size, format,
mip-level count and backing handle are unchanged — provided that, when
mipmaps are requested, the computed size has `max(w, h) ≥ 2`.  (When
mipmaps are requested and the computed size is 1×1, the freshly
allocated backing has mip-level count 1, so the source condition
`mipmap && self.max_mipmap == 1` makes every following identical call
reallocate again.) -/
theorem scale_idempotent_unless_unit_mipmap
    (img : OwnedImage) (scaling : Scale2D) (format : Format)
    (viewport_size source_size original_size : Size) (mipmap : Bool)
    (f1 f2 : Nat)
    (h : mipmap = true →
      2 ≤ max
        (scaleViewport source_size scaling viewport_size
          original_size).width
        (scaleViewport source_size scaling viewport_size
          original_size).height) :
    (OwnedImage.scale
        (img.scale scaling format viewport_size source_size original_size
          mipmap f1).1
        scaling format viewport_size source_size original_size mipmap
        f2).1
      = (img.scale scaling format viewport_size source_size original_size
          mipmap f1).1 := by
  by_cases hc :
      (img.size ≠ scaleViewport source_size scaling viewport_size
          original_size
        ∨ (mipmap = true ∧ img.max_mipmap = 1)
        ∨ (mipmap = false ∧ img.max_mipmap ≠ 1)
        ∨ getClosestFormat format mipmap ≠ img.format)
  · have h1 : (img.scale scaling format viewport_size source_size
        original_size mipmap f1).1
        = OwnedImage.new f1
            (scaleViewport source_size scaling viewport_size original_size)
            (getClosestFormat format mipmap) mipmap := by
      rw [OwnedImage.scale, if_pos hc]
    rw [h1]
    rw [OwnedImage.scale, if_neg ?_]
    push_neg
    have hnewmm : (OwnedImage.new f1
        (scaleViewport source_size scaling viewport_size original_size)
        (getClosestFormat format mipmap) mipmap).max_mipmap
        = if mipmap = true then
            (scaleViewport source_size scaling viewport_size
              original_size).calculate_miplevels
          else 1 := rfl
    refine ⟨rfl, ?_, ?_, (getClosestFormat_idem format mipmap mipmap).symm⟩
    · intro hm
      rw [hnewmm, if_pos hm, Size.calculate_miplevels]
      have h2 := one_le_log2 _ (h hm)
      omega
    · intro hm
      rw [hnewmm, if_neg (by simp [hm])]
  · have h1 : (img.scale scaling format viewport_size source_size
        original_size mipmap f1).1 = img := by
      rw [OwnedImage.scale, if_neg hc]
    rw [h1]
    rw [OwnedImage.scale, if_neg hc]

/-- Witness for C3's amended theorem: without mipmaps, the second
identical scale keeps the image produced by the first. -/
theorem scale_idempotent_witness :
    (OwnedImage.scale
        (OwnedImage.scale ⟨0, ⟨4, 4⟩, .r8g8b8a8Unorm, 1⟩
          ⟨⟨.absolute, 1⟩, ⟨.absolute, 1⟩⟩ .r8g8b8a8Unorm
          ⟨128, 128⟩ ⟨4, 4⟩ ⟨4, 4⟩ false 1).1
        ⟨⟨.absolute, 1⟩, ⟨.absolute, 1⟩⟩ .r8g8b8a8Unorm
        ⟨128, 128⟩ ⟨4, 4⟩ ⟨4, 4⟩ false 2).1
      = (OwnedImage.scale ⟨0, ⟨4, 4⟩, .r8g8b8a8Unorm, 1⟩
          ⟨⟨.absolute, 1⟩, ⟨.absolute, 1⟩⟩ .r8g8b8a8Unorm
          ⟨128, 128⟩ ⟨4, 4⟩ ⟨4, 4⟩ false 1).1 :=
  scale_idempotent_unless_unit_mipmap _ _ _ _ _ _ _ _ _
    (fun hm => absurd hm (by decide))

end Librashader
